import Mathlib

/-!
A shallow embedding of the trojan-detector pipeline in `detector.py`
(class `Detector`: `_load_model`, `configure`, `infer`) together with the
helper modules it imports (`utils.flatten`, `utils.healthchecks`,
`utils.models`, `utils.reduction`).  The helper modules are not part of the
repository snapshot, so their definitions are modelled from the
specification and marked as such in their doc comments; everything else is
translated directly from `detector.py`.

Numeric tensors are embedded as nested lists of integers (`NDTensor`);
Python dictionaries (which preserve insertion order) are embedded as
association lists; the files touched by `configure` and `infer` are
embedded as explicit fields of an `ArtifactFiles` record, and the Python
file-mode semantics (`"rb"`, `"wb"`, `"r"`) are embedded step by step in
`infer`.
-/

namespace NNTroj

/-- Errors raised by the Python code: missing files, dict `KeyError`,
list `IndexError`, `io.UnsupportedOperation` when reading a write-only
handle or writing a read-only handle, plus the spec's error taxonomy for
the modelled helper modules. -/
inductive PyError where
  | fileNotFound (path : String)
  | keyError (key : String)
  | indexError
  | unsupportedOperationRead
  | unsupportedOperationWrite
  | layerMismatch
  | layerNotFound (layer : String)
  | paddingShape
  | typeErrorFit
deriving DecidableEq

/-- First-match lookup in an association list; embeds Python `d[k]` reads
(`none` corresponds to a `KeyError`). -/
def lookupA {α : Type} (k : String) : List (String × α) → Option α
  | [] => none
  | (k', v) :: rest => if k' = k then some v else lookupA k rest

/-- Python `d[k] = v` on an insertion-ordered dict: replace the value in
place if the key is present, otherwise append the binding at the end. -/
def updateAssoc {α : Type} (k : String) (v : α) : List (String × α) → List (String × α)
  | [] => [(k, v)]
  | (k', v') :: rest =>
    if k' = k then (k, v) :: rest else (k', v') :: updateAssoc k v rest

/-- Python `d[k].append(x)` for a dict of lists whose key `k` is already
present (the callers in `configure` guard the insertion first). -/
def appendVal {α : Type} (k : String) (x : α) :
    List (String × List α) → List (String × List α)
  | [] => []
  | (k', xs) :: rest =>
    if k' = k then (k', xs ++ [x]) :: rest else (k', xs) :: appendVal k x rest

/-- Map over the values of an association list, keeping keys and order. -/
def mapVals {α β : Type} (f : α → β) : List (String × α) → List (String × β)
  | [] => []
  | (k, v) :: rest => (k, f v) :: mapVals f rest

theorem lookupA_mapVals {α β : Type} (f : α → β) (k : String) :
    ∀ d : List (String × α), lookupA k (mapVals f d) = (lookupA k d).map f := by
  intro d
  induction d with
  | nil => rfl
  | cons p rest ih =>
    obtain ⟨k', v⟩ := p
    by_cases h : k' = k <;> simp [lookupA, mapVals, h, ih]

theorem lookupA_updateAssoc_self {α : Type} (k : String) (v : α) :
    ∀ d : List (String × α), lookupA k (updateAssoc k v d) = some v := by
  intro d
  induction d with
  | nil => simp [updateAssoc, lookupA]
  | cons p rest ih =>
    obtain ⟨k', v'⟩ := p
    by_cases h : k' = k <;> simp [updateAssoc, lookupA, h, ih]

theorem lookupA_updateAssoc_other {α : Type} (k n : String) (v : α) (hne : n ≠ k) :
    ∀ d : List (String × α), lookupA n (updateAssoc k v d) = lookupA n d := by
  intro d
  induction d with
  | nil => simp [updateAssoc, lookupA, Ne.symm hne]
  | cons p rest ih =>
    obtain ⟨k', v'⟩ := p
    by_cases h : k' = k
    · subst h
      simp [updateAssoc, lookupA, Ne.symm hne]
    · simp [updateAssoc, lookupA, h, ih]

/-- A numeric tensor of arbitrary rank, embedded as a nested list tree
(`numpy` arrays in the source). -/
inductive NDTensor where
  | scalar (v : Int)
  | dim (ts : List NDTensor)

/-- An all-zero tensor of the given shape (the neutral padding value). -/
def zeroTensor : List Nat → NDTensor
  | [] => .scalar 0
  | n :: rest => .dim (List.replicate n (zeroTensor rest))

/-- Row-major flattening of a tensor into a list of its scalar entries. -/
def flattenT : NDTensor → List Int
  | .scalar v => [v]
  | .dim [] => []
  | .dim (t :: ts) => flattenT t ++ flattenT (.dim ts)

/-- The shape of a tensor, reading lengths along the first branch. -/
def shapeOf : NDTensor → List Nat
  | .scalar _ => []
  | .dim [] => [0]
  | .dim (t :: ts) => (ts.length + 1) :: shapeOf t

mutual
/-- Modelled from the spec: `pad_to_target` from the missing module
`utils/flatten.py`.  Pads a tensor with zeros up to `target` along every
dimension; fails (`PaddingShapeError`) when the tensor exceeds the target
along some dimension or its rank does not match. -/
def pad_to_target : NDTensor → List Nat → Except PyError NDTensor
  | .scalar v, [] => .ok (.scalar v)
  | .scalar _, _ :: _ => .error .paddingShape
  | .dim _, [] => .error .paddingShape
  | .dim ts, n :: rest =>
    if n < ts.length then .error .paddingShape
    else
      match mapPad ts rest with
      | .error e => .error e
      | .ok ts2 => .ok (.dim (ts2 ++ List.replicate (n - ts.length) (zeroTensor rest)))

/-- Pads every tensor of a list to the same target shape, stopping at the
first failure. -/
def mapPad : List NDTensor → List Nat → Except PyError (List NDTensor)
  | [], _ => .ok []
  | t :: ts, tgt =>
    match pad_to_target t tgt, mapPad ts tgt with
    | .error e, _ => .error e
    | .ok _, .error e => .error e
    | .ok t2, .ok ts2 => .ok (t2 :: ts2)
end

/-- The static per-architecture padding table `Detector.model_padding`
(detector.py lines 22-26). -/
def modelPadding (c : String) : Option (List (String × List Nat)) :=
  if c = "MobileNetV2" then
    some [("classifier.1.weight", [138, 1280]), ("classifier.1.bias", [138])]
  else if c = "ResNet" then
    some [("fc.weight", [138, 2048]), ("fc.bias", [138])]
  else if c = "VisionTransformer" then
    some [("head.weight", [138, 768]), ("head.bias", [138])]
  else none

/-- A deserialized `model.pt`: the model object's class name and its
`state_dict()` as an insertion-ordered mapping from layer names to
tensors. -/
structure PyModel where
  className : String
  stateDict : List (String × NDTensor)

/-- One model directory of the corpus: the serialized model and the
optional `ground_truth.csv` file content (`none` means the file is
absent on disk). -/
structure ModelDir where
  modelPt : PyModel
  groundTruthCsv : Option String

/-- Python `file.readlines()`: split the text after every newline
character, keeping each newline at the end of its line. -/
def pyReadlinesAux : List Char → List Char → List String
  | [], acc => if acc.isEmpty then [] else [String.mk acc.reverse]
  | c :: rest, acc =>
    if c = '\n' then String.mk (c :: acc).reverse :: pyReadlinesAux rest []
    else pyReadlinesAux rest (c :: acc)

/-- Python `file.readlines()` on a whole file content. -/
def pyReadlines (s : String) : List String :=
  pyReadlinesAux s.data []

/-- detector.py lines 86-90: in configure mode, open
`<model_path>/ground_truth.csv` (raising `FileNotFoundError` when absent)
and take `readlines()[0]` (raising `IndexError` on an empty file). -/
def readGroundTruth (dir : ModelDir) (configure_mode : Bool) :
    Except PyError (Option String) :=
  if configure_mode then
    match dir.groundTruthCsv with
    | none => .error (.fileNotFound "ground_truth.csv")
    | some s =>
      match pyReadlines s with
      | [] => .error .indexError
      | l :: _ => .ok (some l)
  else .ok none

/-- detector.py lines 94-95: the padding loop
`for (layer, target_padding) in self.model_padding[model_class].items():
model_repr[layer] = pad_to_target(model_repr[layer], target_padding)`.
Reading an absent layer raises `KeyError`. -/
def applyPadding : List (String × List Nat) → List (String × NDTensor) →
    Except PyError (List (String × NDTensor))
  | [], m => .ok m
  | (layer, tgt) :: rest, m =>
    match lookupA layer m with
    | none => .error (.keyError layer)
    | some t =>
      match pad_to_target t tgt with
      | .error e => .error e
      | .ok t2 => applyPadding rest (updateAssoc layer t2 m)

/-- `Detector._load_model` (detector.py lines 79-97): deserialize the
model, read the ground truth when in configure mode, then pad the
architecture's head layers using `model_padding` (an unknown class name
raises `KeyError`). -/
def loadModel (dir : ModelDir) (configure_mode : Bool) :
    Except PyError (List (String × NDTensor) × String × Option String) :=
  let cls := dir.modelPt.className
  match readGroundTruth dir configure_mode with
  | .error e => .error e
  | .ok gt =>
    match modelPadding cls with
    | none => .error (.keyError cls)
    | some tbl =>
      match applyPadding tbl dir.modelPt.stateDict with
      | .error e => .error e
      | .ok repr2 => .ok (repr2, cls, gt)

/-- Per architecture, the ordered list of `(layer_name, flatten_length)`
pairs describing how to serialize a model into a vector. -/
abbrev LayerMap := List (String × Nat)

/-- The pickled layer-map artifact: architecture name to `LayerMap`. -/
abbrev LayerMapDict := List (String × LayerMap)

/-- Modelled from the spec: `flatten_model` from the missing module
`utils/flatten.py`.  Iterates the layer map's recorded order, looks each
layer up in the model (raising `LayerNotFoundError` when absent), flattens
its tensor row-major and concatenates the pieces. -/
def flatten_model (m : List (String × NDTensor)) : LayerMap →
    Except PyError (List Int)
  | [] => .ok []
  | (name, _) :: rest =>
    match lookupA name m with
    | none => .error (.layerNotFound name)
    | some t =>
      match flatten_model m rest with
      | .error e => .error e
      | .ok v => .ok (flattenT t ++ v)

/-- Modelled from the spec: `create_layer_map` from the missing module
`utils/models.py`.  For each architecture, inspects one representative
model (the first of the list) and records, in that model's own layer
order, each layer's name and flattened element count. -/
def create_layer_map (d : List (String × List (List (String × NDTensor)))) :
    LayerMapDict :=
  mapVals (fun ms => (ms.headD []).map (fun nt => (nt.1, (flattenT nt.2).length))) d

/-- Layer-name set equality between two models, ignoring values. -/
def sameNameSet (m1 m2 : List (String × NDTensor)) : Bool :=
  (m1.map Prod.fst).all (fun n => (m2.map Prod.fst).contains n) &&
  (m2.map Prod.fst).all (fun n => (m1.map Prod.fst).contains n)

/-- Modelled from the spec: `check_models_consistency` from the missing
module `utils/healthchecks.py`.  Succeeds exactly when, within every
architecture's model list, all models have the same layer-name set;
`configure` aborts with `LayerMismatchError` when it fails. -/
def check_models_consistency
    (d : List (String × List (List (String × NDTensor)))) : Bool :=
  d.all (fun av =>
    match av.2 with
    | [] => true
    | m :: rest => rest.all (sameNameSet m))

/-- The weight-table metaparameters consumed by the feature reduction
(detector.py lines 46-51). -/
structure WeightTableParams where
  random_seed : Nat
  mean : Int
  std : Int
  scaler : Int

/-- Modelled from the spec: one entry of the random projection weight
table.  The normal draw of the source is abstracted into a fixed
deterministic function of the seed, the distribution parameters and the
entry's position; the claims do not depend on the distribution. -/
def weightEntry (p : WeightTableParams) (i j : Nat) : Int :=
  p.mean + p.scaler * p.std * ((p.random_seed + 31 * i + j) % 97)

/-- Modelled from the spec: the projection matrix of shape
`(flatWidth, outWidth)` drawn deterministically from the seed. -/
def projTable (p : WeightTableParams) (flatWidth outWidth : Nat) :
    List (List Int) :=
  (List.range flatWidth).map (fun i =>
    (List.range outWidth).map (fun j => weightEntry p i j))

/-- A fitted per-architecture reduction transform: the random projection
matrix mapping a flat vector to a fixed-width feature vector. -/
structure ReductionTransform where
  table : List (List Int)

/-- The pickled layer-transform artifact: architecture name to transform. -/
abbrev TransformDict := List (String × ReductionTransform)

/-- Modelled from the spec: `fit_feature_reduction_algorithm` from the
missing module `utils/reduction.py`.  Builds, per architecture, a random
projection matrix whose row count is the architecture's flat-vector width
(taken from the first flattened model) and whose column count is the
`input_features` metaparameter. -/
def fit_feature_reduction_algorithm
    (newModels : List (String × List (List Int)))
    (p : WeightTableParams) (outWidth : Nat) : TransformDict :=
  newModels.map (fun av => (av.1, ⟨projTable p (av.2.headD []).length outWidth⟩))

/-- Pointwise sum of two vectors (`numpy` addition on equal widths). -/
def addVec (a b : List Int) : List Int :=
  List.zipWith (fun x y => x + y) a b

/-- A vector scaled by a constant. -/
def scaleVec (c : Int) (row : List Int) : List Int :=
  row.map (fun x => c * x)

/-- Modelled from the spec: `use_feature_reduction_algorithm` from the
missing module `utils/reduction.py`.  A pure function of the transform and
the flat vector: multiplies the vector through the projection table. -/
def use_feature_reduction_algorithm (tr : ReductionTransform)
    (v : List Int) : List Int :=
  match tr.table with
  | [] => []
  | r0 :: _ =>
    (List.zipWith scaleVec v tr.table).foldl addVec
      (List.replicate r0.length 0)

/-- The fitted regressor, embedded as the record of the training data it
was fitted on (the regression algorithm itself is an external black box
per the spec; labels are kept exactly as passed to `fit`). -/
structure Regressor where
  Xtrain : List (List Int)
  ytrain : List (Option String)

/-- The on-disk content of the regressor artifact: either a pickled
regressor, or the empty file left behind by an `open(..., "wb")` that was
never written to. -/
inductive RegressorBlob where
  | pickled (r : Regressor)
  | truncated
deriving Inhabited

/-- The three artifact files owned by `Detector` (`data/model_layer_map.bin`,
`data/layer_transform.bin`, `data/model.bin`); `none` means the file is
absent on disk. -/
structure ArtifactFiles where
  layerMapFile : Option LayerMapDict
  transformFile : Option TransformDict
  regressorFile : Option RegressorBlob

/-- Python `os.path.join` on two path fragments. -/
def pyJoin (a b : String) : String := a ++ "/" ++ b

/-- Result of one `infer` call: the final on-disk artifact state, the
final result-file content, and the call's outcome. -/
structure InferResult where
  artifacts : ArtifactFiles
  resultFile : Option String
  outcome : Except PyError Unit

/-- `Detector.infer` (detector.py lines 182-209), step by step with
Python's file-mode semantics:
* line 191: `_load_model(model_filepath, configure_mode=True)`;
* line 195: `open(layer_map, "rb")` — `FileNotFoundError` when absent;
* line 198: `flatten_model(model_repr, model_layer_map[model_class])`;
* line 200: `open(layer_transform, "rb")` — `FileNotFoundError` when absent;
* line 203: `use_feature_reduction_algorithm(layer_transform[model_class], ...)`;
* line 205: `open(model_filepath, "wb")` — truncates/creates the regressor
  artifact, and the following `pickle.load(fp)` raises
  `io.UnsupportedOperation` because the handle is write-only;
* lines 208-209 (never reached): `open(result_filepath, "r")` followed by
  `fp.write(...)`. -/
def infer (lp : String) (art : ArtifactFiles) (result0 : Option String)
    (dir : ModelDir) : InferResult :=
  match loadModel dir true with
  | .error e => ⟨art, result0, .error e⟩
  | .ok (repr2, cls, _) =>
    match art.layerMapFile with
    | none =>
      ⟨art, result0, .error (.fileNotFound (pyJoin lp "data/model_layer_map.bin"))⟩
    | some lmd =>
      match lookupA cls lmd with
      | none => ⟨art, result0, .error (.keyError cls)⟩
      | some lm =>
        match flatten_model repr2 lm with
        | .error e => ⟨art, result0, .error e⟩
        | .ok flat =>
          match art.transformFile with
          | none =>
            ⟨art, result0,
              .error (.fileNotFound (pyJoin lp "data/layer_transform.bin"))⟩
          | some td =>
            match lookupA cls td with
            | none => ⟨art, result0, .error (.keyError cls)⟩
            | some tr =>
              let _X := use_feature_reduction_algorithm tr flat
              ⟨⟨art.layerMapFile, art.transformFile, some .truncated⟩,
                result0, .error .unsupportedOperationRead⟩

/-- One loaded corpus entry: `(model_repr, model_class, model_ground_truth)`. -/
abbrev LoadedModel := List (String × NDTensor) × String × Option String

/-- The loading loop of `configure` (detector.py lines 110-113): load every
model of the sorted corpus in order, in configure mode; the first raised
error aborts the run. -/
def loadAll : List ModelDir → Except PyError (List LoadedModel)
  | [] => .ok []
  | d :: rest =>
    match loadModel d true with
    | .error e => .error e
    | .ok x =>
      match loadAll rest with
      | .error e => .error e
      | .ok xs => .ok (x :: xs)

/-- The per-architecture dictionaries built by `configure`. -/
abbrev ReprDict := List (String × List (List (String × NDTensor)))

/-- The ground-truth dictionary built by `configure`. -/
abbrev GtDict := List (String × List (Option String))

/-- One iteration of the grouping loop (detector.py lines 116-121): insert
the class key with empty lists into both dicts when new, then append the
representation and the ground truth to the class's lists. -/
def groupStep (acc : ReprDict × GtDict) (x : LoadedModel) : ReprDict × GtDict :=
  let cls := x.2.1
  let acc2 :=
    if (lookupA cls acc.1).isNone then
      (acc.1 ++ [(cls, [])], acc.2 ++ [(cls, [])])
    else acc
  (appendVal cls x.1 acc2.1, appendVal cls x.2.2 acc2.2)

/-- The grouping loop over the whole loaded corpus. -/
def groupLoaded (loaded : List LoadedModel) : ReprDict × GtDict :=
  loaded.foldl groupStep ([], [])

/-- The flattening loop (detector.py lines 134-142): per architecture, look
the layer map up (`KeyError` when absent) and flatten every model. -/
def flattenArchList (ms : List (List (String × NDTensor))) (lm : LayerMap) :
    Except PyError (List (List Int)) :=
  match ms with
  | [] => .ok []
  | m :: rest =>
    match flatten_model m lm with
    | .error e => .error e
    | .ok v =>
      match flattenArchList rest lm with
      | .error e => .error e
      | .ok vs => .ok (v :: vs)

/-- The outer flattening loop over the architecture dictionary. -/
def flattenAll (rd : ReprDict) (lmd : LayerMapDict) :
    Except PyError (List (String × List (List Int))) :=
  match rd with
  | [] => .ok []
  | (arch, ms) :: rest =>
    match lookupA arch lmd with
    | none => .error (.keyError arch)
    | some lm =>
      match flattenArchList ms lm with
      | .error e => .error e
      | .ok vs =>
        match flattenAll rest lmd with
        | .error e => .error e
        | .ok tail => .ok ((arch, vs) :: tail)

/-- `np.vstack` accumulation of `X` (detector.py lines 167-171): the first
row replaces the `None` start, later rows are stacked below. -/
def pushRow (X : Option (List (List Int))) (row : List Int) :
    Option (List (List Int)) :=
  match X with
  | none => some [row]
  | some M => some (M ++ [row])

/-- The per-architecture X/y loop (detector.py lines 157-171): walk the
architecture's flattened models with the running `model_index`, append the
ground truth at that index to `y` (an out-of-range index raises
`IndexError`), then append the model's reduced features to `X`. -/
def archRows (gts : List (Option String)) (tr : ReductionTransform) :
    List (List Int) → Nat → Option (List (List Int)) →
    List (Option String) →
    Except PyError (Option (List (List Int)) × List (Option String))
  | [], _, X, y => .ok (X, y)
  | m :: rest, idx, X, y =>
    match gts[idx]? with
    | none => .error .indexError
    | some g =>
      archRows gts tr rest (idx + 1)
        (pushRow X (use_feature_reduction_algorithm tr m)) (y ++ [g])

/-- The outer X/y loop over the architecture dictionary (detector.py lines
154-171), with the `model_ground_truth_dict[model_arch]` and
`layer_transform[model_arch]` dict reads. -/
def buildXY (nm : List (String × List (List Int)))
    (gd : GtDict) (ltd : TransformDict) :
    Option (List (List Int)) → List (Option String) →
    Except PyError (Option (List (List Int)) × List (Option String))
  | X, y =>
    match nm with
    | [] => .ok (X, y)
    | (arch, ms) :: rest =>
      match lookupA arch gd with
      | none => .error (.keyError arch)
      | some gts =>
        match lookupA arch ltd with
        | none => .error (.keyError arch)
        | some tr =>
          match archRows gts tr ms 0 X y with
          | .error e => .error e
          | .ok (X2, y2) => buildXY rest gd ltd X2 y2

/-- Result of one `configure` call: the final artifact state and the
call's outcome. -/
structure ConfigureResult where
  artifacts : ArtifactFiles
  outcome : Except PyError Unit

/-- `Detector.configure` (detector.py lines 99-180): load all models of
the sorted corpus in configure mode and group them by class, run the
consistency check (`LayerMismatchError` aborts before any artifact is
written), build and persist the layer map, flatten all models, fit and
persist the reduction transform, build `X` and `y`, fit the regressor
(`fit(None, ...)` on an empty corpus raises `TypeError`) and persist it. -/
def configure (art0 : ArtifactFiles) (dirs : List ModelDir)
    (p : WeightTableParams) (inputFeatures : Nat) : ConfigureResult :=
  match loadAll dirs with
  | .error e => ⟨art0, .error e⟩
  | .ok loaded =>
    let rd := (groupLoaded loaded).1
    let gd := (groupLoaded loaded).2
    if check_models_consistency rd then
      let lmd := create_layer_map rd
      let art1 : ArtifactFiles := ⟨some lmd, art0.transformFile, art0.regressorFile⟩
      match flattenAll rd lmd with
      | .error e => ⟨art1, .error e⟩
      | .ok nm =>
        let ltd := fit_feature_reduction_algorithm nm p inputFeatures
        let art2 : ArtifactFiles := ⟨some lmd, some ltd, art0.regressorFile⟩
        match buildXY nm gd ltd none [] with
        | .error e => ⟨art2, .error e⟩
        | .ok (X, y) =>
          match X with
          | none => ⟨art2, .error .typeErrorFit⟩
          | some M =>
            ⟨⟨some lmd, some ltd, some (.pickled ⟨M, y⟩)⟩, .ok ()⟩
    else ⟨art0, .error .layerMismatch⟩

/-! ### Padding lemmas -/

theorem mapPad_length :
    ∀ (ts : List NDTensor) (tgt : List Nat) (ts2 : List NDTensor),
      mapPad ts tgt = .ok ts2 → ts2.length = ts.length := by
  intro ts
  induction ts with
  | nil => intro tgt ts2 h; simp [mapPad] at h; simp [h.symm]
  | cons t rest ih =>
    intro tgt ts2 h
    simp only [mapPad] at h
    cases hp : pad_to_target t tgt with
    | error e => rw [hp] at h; simp at h
    | ok t2 =>
      rw [hp] at h
      cases hm : mapPad rest tgt with
      | error e => rw [hm] at h; simp at h
      | ok rest2 =>
        rw [hm] at h
        simp at h
        rw [h.symm]
        simp [ih tgt rest2 hm]

theorem mapPad_cons_inv (ts : List NDTensor) (tgt : List Nat)
    (x : NDTensor) (xs : List NDTensor) (h : mapPad ts tgt = .ok (x :: xs)) :
    ∃ t0 tst, ts = t0 :: tst ∧ pad_to_target t0 tgt = .ok x ∧
      mapPad tst tgt = .ok xs := by
  cases ts with
  | nil => simp [mapPad] at h
  | cons t0 tst =>
    refine ⟨t0, tst, rfl, ?_⟩
    simp only [mapPad] at h
    cases hp : pad_to_target t0 tgt with
    | error e => rw [hp] at h; simp at h
    | ok t2 =>
      rw [hp] at h
      cases hm : mapPad tst tgt with
      | error e => rw [hm] at h; simp at h
      | ok rest2 =>
        rw [hm] at h
        simp at h
        exact ⟨by rw [h.1], by rw [h.2]⟩

theorem pad_zeroTensor : ∀ s : List Nat,
    pad_to_target (zeroTensor s) s = .ok (zeroTensor s) := by
  intro s
  induction s with
  | nil => rfl
  | cons n rest ih =>
    have haux : ∀ k, mapPad (List.replicate k (zeroTensor rest)) rest =
        .ok (List.replicate k (zeroTensor rest)) := by
      intro k
      induction k with
      | zero => simp [mapPad]
      | succ m ihm => simp [List.replicate_succ, mapPad, ih, ihm]
    simp [zeroTensor, pad_to_target, haux n]

theorem shapeOf_zeroTensor : ∀ s : List Nat, (∀ d ∈ s, 0 < d) →
    shapeOf (zeroTensor s) = s := by
  intro s
  induction s with
  | nil => intro _; rfl
  | cons n rest ih =>
    intro hpos
    cases n with
    | zero => exact absurd (hpos 0 (by simp)) (by simp)
    | succ m =>
      have hr : shapeOf (zeroTensor rest) = rest :=
        ih (fun d hd => hpos d (by simp [hd]))
      simp [zeroTensor, List.replicate_succ, shapeOf, hr]

theorem pad_shape : ∀ (s : List Nat) (t t2 : NDTensor),
    pad_to_target t s = .ok t2 → (∀ d ∈ s, 0 < d) → shapeOf t2 = s := by
  intro s
  induction s with
  | nil =>
    intro t t2 h _
    cases t with
    | scalar v => simp [pad_to_target] at h; simp [h.symm, shapeOf]
    | dim ts => simp [pad_to_target] at h
  | cons n rest ih =>
    intro t t2 h hpos
    cases t with
    | scalar v => simp [pad_to_target] at h
    | dim ts =>
      simp only [pad_to_target] at h
      by_cases hlen : n < ts.length
      · rw [if_pos hlen] at h; simp at h
      · rw [if_neg hlen] at h
        cases hm : mapPad ts rest with
        | error e => rw [hm] at h; simp at h
        | ok ts2 =>
          rw [hm] at h
          simp at h
          have hlen2 : ts2.length = ts.length := mapPad_length ts rest ts2 hm
          have hn : 0 < n := hpos n (by simp)
          have hrestpos : ∀ d ∈ rest, 0 < d := fun d hd => hpos d (by simp [hd])
          cases hts2 : ts2 with
          | nil =>
            have hts : ts = [] := by
              have := hlen2
              rw [hts2] at this
              exact List.eq_nil_of_length_eq_zero this.symm
            rw [hts2, hts] at h
            cases n with
            | zero => exact absurd hn (by simp)
            | succ m =>
              rw [h.symm]
              simp only [List.nil_append, List.length_nil, Nat.sub_zero,
                List.replicate_succ, shapeOf]
              simp [List.length_replicate, shapeOf_zeroTensor rest hrestpos]
          | cons x xs =>
            rw [hts2] at h
            obtain ⟨t0, tst, hts, hp0, _⟩ := mapPad_cons_inv ts rest x xs (hts2 ▸ hm)
            have hx : shapeOf x = rest := ih t0 x hp0 hrestpos
            rw [h.symm]
            simp only [List.cons_append, shapeOf]
            rw [hx]
            have : (xs ++ List.replicate (n - ts.length) (zeroTensor rest)).length + 1 = n := by
              simp only [List.length_append, List.length_replicate]
              have h1 : xs.length + 1 = ts.length := by
                rw [← hlen2, hts2]; simp
              omega
            simp only [List.append_eq]
            rw [this]

/-! ### The padding loop of `_load_model` -/

theorem applyPadding_spec :
    ∀ (tbl : List (String × List Nat)) (m m2 : List (String × NDTensor)),
      (tbl.map Prod.fst).Nodup → applyPadding tbl m = .ok m2 →
      ((∀ p ∈ tbl, ∃ t0 t2, lookupA p.1 m = some t0 ∧
          pad_to_target t0 p.2 = .ok t2 ∧ lookupA p.1 m2 = some t2) ∧
        (∀ n, (∀ p ∈ tbl, p.1 ≠ n) → lookupA n m2 = lookupA n m)) := by
  intro tbl
  induction tbl with
  | nil =>
    intro m m2 _ h
    simp [applyPadding] at h
    subst h
    exact ⟨by simp, fun n _ => rfl⟩
  | cons q rest ih =>
    intro m m2 hnd h
    obtain ⟨k, tgt⟩ := q
    cases hl : lookupA k m with
    | none => simp only [applyPadding, hl] at h; exact absurd h (by simp)
    | some t0 =>
      simp only [applyPadding, hl] at h
      cases hp : pad_to_target t0 tgt with
      | error e => simp only [hp] at h; exact absurd h (by simp)
      | ok t2 =>
        simp only [hp] at h
        have hnd2 : (k :: rest.map Prod.fst).Nodup := by simpa using hnd
        have hkni : k ∉ rest.map Prod.fst := (List.nodup_cons.mp hnd2).1
        have hnd' : (rest.map Prod.fst).Nodup := (List.nodup_cons.mp hnd2).2
        obtain ⟨A, B⟩ := ih (updateAssoc k t2 m) m2 hnd' h
        have hrest_ne_k : ∀ r ∈ rest, r.1 ≠ k := by
          intro r hr heq
          exact hkni (heq ▸ List.mem_map_of_mem Prod.fst hr)
        constructor
        · intro q hq
          rcases List.mem_cons.mp hq with hq1 | hq2
          · subst hq1
            refine ⟨t0, t2, hl, hp, ?_⟩
            rw [B k hrest_ne_k, lookupA_updateAssoc_self]
          · obtain ⟨t0', t2', hl', hp', hm2⟩ := A q hq2
            rw [lookupA_updateAssoc_other k q.1 t2 (hrest_ne_k q hq2) m] at hl'
            exact ⟨t0', t2', hl', hp', hm2⟩
        · intro n hn
          have h1 := B n (fun r hr => hn r (List.mem_cons_of_mem _ hr))
          have hkn : n ≠ k := Ne.symm (hn (k, tgt) (by simp))
          rw [h1, lookupA_updateAssoc_other k n t2 hkn]

theorem loadModel_ok_inv (dir : ModelDir) (cm : Bool)
    (repr2 : List (String × NDTensor)) (cls : String) (gt : Option String)
    (h : loadModel dir cm = .ok (repr2, cls, gt)) :
    cls = dir.modelPt.className ∧ readGroundTruth dir cm = .ok gt ∧
      ∃ tbl, modelPadding dir.modelPt.className = some tbl ∧
        applyPadding tbl dir.modelPt.stateDict = .ok repr2 := by
  cases hg : readGroundTruth dir cm with
  | error e => simp only [loadModel, hg] at h; exact absurd h (by simp)
  | ok gt' =>
    simp only [loadModel, hg] at h
    cases hmp : modelPadding dir.modelPt.className with
    | none => simp only [hmp] at h; exact absurd h (by simp)
    | some tbl =>
      simp only [hmp] at h
      cases hap : applyPadding tbl dir.modelPt.stateDict with
      | error e => simp only [hap] at h; exact absurd h (by simp)
      | ok r2 =>
        simp only [hap] at h
        injection h with h'
        obtain ⟨hr, hc, hgt⟩ :
            r2 = repr2 ∧ dir.modelPt.className = cls ∧ gt' = gt := by
          simpa using h'
        subst hr; subst hgt
        exact ⟨hc.symm, rfl, tbl, rfl, hap⟩

theorem modelPadding_table_facts (c : String) (tbl : List (String × List Nat))
    (h : modelPadding c = some tbl) :
    (tbl.map Prod.fst).Nodup ∧ ∀ p ∈ tbl, ∀ d ∈ p.2, 0 < d := by
  unfold modelPadding at h
  split_ifs at h <;>
    (injection h with h; subst h; exact ⟨by decide, by decide⟩)

/-- C6: when `_load_model` succeeds, the padding loop has been applied
exactly to the head layers listed in the static `model_padding` table for
the model's architecture — each such layer is the zero-padding of the
original tensor and has the table's fixed target shape — while every
layer name outside the table is left unchanged. -/
theorem load_model_pads_head_layers
    (dir : ModelDir) (cm : Bool) (repr2 : List (String × NDTensor))
    (cls : String) (gt : Option String)
    (h : loadModel dir cm = .ok (repr2, cls, gt)) :
    ∃ tbl, modelPadding cls = some tbl ∧
      (∀ p ∈ tbl, ∃ t0 t2, lookupA p.1 dir.modelPt.stateDict = some t0 ∧
        pad_to_target t0 p.2 = .ok t2 ∧ lookupA p.1 repr2 = some t2 ∧
        shapeOf t2 = p.2) ∧
      (∀ n, (∀ p ∈ tbl, p.1 ≠ n) →
        lookupA n repr2 = lookupA n dir.modelPt.stateDict) := by
  obtain ⟨hcls, _, tbl, hmp, hap⟩ := loadModel_ok_inv dir cm repr2 cls gt h
  obtain ⟨hnd, hpos⟩ := modelPadding_table_facts _ tbl hmp
  obtain ⟨A, B⟩ := applyPadding_spec tbl dir.modelPt.stateDict repr2 hnd hap
  refine ⟨tbl, hcls ▸ hmp, ?_, B⟩
  intro p hp
  obtain ⟨t0, t2, hl, hpd, hm2⟩ := A p hp
  exact ⟨t0, t2, hl, hpd, hm2, pad_shape p.2 t0 t2 hpd (hpos p hp)⟩

/-! ### Concrete corpus material used by witnesses and counterexamples -/

/-- A zero tensor with the padded `VisionTransformer` head-weight shape. -/
def zW : NDTensor := zeroTensor [138, 768]

/-- A zero tensor with the padded `VisionTransformer` head-bias shape. -/
def zB : NDTensor := zeroTensor [138]

/-- A `VisionTransformer` state dict carrying exactly the two head layers,
already at their target shapes. -/
def vitSD : List (String × NDTensor) := [("head.weight", zW), ("head.bias", zB)]

/-- A well-formed `VisionTransformer` model directory with ground truth
file content `"0\n"`. -/
def vitDir : ModelDir := ⟨⟨"VisionTransformer", vitSD⟩, some "0\n"⟩

theorem loadModel_vitDir :
    loadModel vitDir true = .ok (vitSD, "VisionTransformer", some "0\n") := by
  have hg : readGroundTruth ⟨⟨"VisionTransformer", vitSD⟩, some "0\n"⟩ true =
      .ok (some "0\n") := by
    have hr : pyReadlines "0\n" = ["0\n"] := by rfl
    simp [readGroundTruth, hr]
  have hw : pad_to_target zW [138, 768] = .ok zW := pad_zeroTensor [138, 768]
  have hb : pad_to_target zB [138] = .ok zB := pad_zeroTensor [138]
  have hmp : modelPadding "VisionTransformer" =
      some [("head.weight", [138, 768]), ("head.bias", [138])] := by rfl
  have l1 : lookupA "head.weight" vitSD = some zW := by simp [vitSD, lookupA]
  have u1 : updateAssoc "head.weight" zW vitSD = vitSD := by
    simp [vitSD, updateAssoc]
  have l2 : lookupA "head.bias" vitSD = some zB := by simp [vitSD, lookupA]
  have u2 : updateAssoc "head.bias" zB vitSD = vitSD := by
    simp [vitSD, updateAssoc]
  simp [loadModel, vitDir, hg, hmp, applyPadding, l1, hw, u1, l2, hb, u2]

/-- An artifact state in which all three artifacts are present; the layer
map and transform carry a `VisionTransformer` entry. -/
def lmdC : LayerMapDict := [("VisionTransformer", [])]

/-- A transform dictionary with a `VisionTransformer` entry. -/
def ltdC : TransformDict := [("VisionTransformer", ⟨[]⟩)]

/-- A pickled regressor blob used as pre-state of the regressor file. -/
def regC : Regressor := ⟨[[3]], [some "0\n"]⟩

/-- Artifact state with all three artifact files present. -/
def artAll : ArtifactFiles := ⟨some lmdC, some ltdC, some (.pickled regC)⟩

/-- Artifact state where only the regressor file is absent. -/
def artNoReg : ArtifactFiles := ⟨some lmdC, some ltdC, none⟩

/-! ### Claims about `infer` -/

/-- C1: `infer` never completes successfully and never writes the score:
`open(self.model_filepath, "wb")` followed by `pickle.load(fp)` on the
write-only handle raises `io.UnsupportedOperation` on every path that
reaches it, and every earlier step can only raise — so the result file is
never written (the dead `open(result_filepath, "r")` / `fp.write` code is
never reached, and would itself raise on a read-only handle). -/
theorem infer_never_writes_result (lp : String) (art : ArtifactFiles)
    (res0 : Option String) (dir : ModelDir) :
    (infer lp art res0 dir).outcome ≠ Except.ok () ∧
    (infer lp art res0 dir).resultFile = res0 := by
  unfold infer
  repeat' split
  all_goals exact ⟨by simp, rfl⟩

/-- C2: a concrete `infer` call on a fully-configured artifact state
truncates the regressor artifact: `open(self.model_filepath, "wb")` at
line 205 empties the pickled regressor file, so the artifact is mutated by
`infer`, contradicting the read-only ownership claim. -/
theorem infer_truncates_regressor_file :
    (infer "lp" artAll none vitDir).artifacts.regressorFile ≠
      artAll.regressorFile ∧
    (infer "lp" artAll none vitDir).artifacts.regressorFile =
      some RegressorBlob.truncated ∧
    artAll.regressorFile = some (RegressorBlob.pickled regC) := by
  have h : (infer "lp" artAll none vitDir).artifacts.regressorFile =
      some RegressorBlob.truncated := by
    simp [infer, loadModel_vitDir, artAll, lmdC, ltdC, lookupA, flatten_model]
  exact ⟨by rw [h]; simp [artAll], h, rfl⟩

/-- C3: when the regressor artifact is the absent one, `infer` does not
fail with an error naming the missing artifact and it does write to an
artifact path: `open(self.model_filepath, "wb")` creates an empty file at
the regressor's canonical path and the call dies with
`io.UnsupportedOperation` instead of a missing-artifact error. -/
theorem infer_missing_regressor_creates_artifact :
    artNoReg.regressorFile = none ∧
    (infer "lp" artNoReg none vitDir).artifacts.regressorFile =
      some RegressorBlob.truncated ∧
    (infer "lp" artNoReg none vitDir).outcome =
      .error PyError.unsupportedOperationRead := by
  refine ⟨rfl, ?_, ?_⟩ <;>
    simp [infer, loadModel_vitDir, artNoReg, lmdC, ltdC, lookupA, flatten_model]

/-- C9: `infer` always loads the model with `configure_mode=True`
(detector.py line 192), so inference on a model directory without a
`ground_truth.csv` file fails with `FileNotFoundError` for that file, and
nothing else happens. -/
theorem infer_requires_ground_truth (lp : String) (art : ArtifactFiles)
    (res0 : Option String) (dir : ModelDir) (h : dir.groundTruthCsv = none) :
    infer lp art res0 dir =
      ⟨art, res0, .error (.fileNotFound "ground_truth.csv")⟩ := by
  simp [infer, loadModel, readGroundTruth, h]

/-- Witness for C9 at a concrete input: a `VisionTransformer` directory
with no ground-truth file. -/
theorem infer_requires_ground_truth_witness :
    infer "lp" artAll none ⟨⟨"VisionTransformer", vitSD⟩, none⟩ =
      ⟨artAll, none, .error (.fileNotFound "ground_truth.csv")⟩ :=
  infer_requires_ground_truth "lp" artAll none
    ⟨⟨"VisionTransformer", vitSD⟩, none⟩ rfl

/-- C8: a model whose class name has no entry in the padding table fails
to load — the `self.model_padding[model_class]` dict lookup raises
`KeyError` (provided the earlier ground-truth read did not already fail);
there is no skip-and-continue path. -/
theorem load_model_unknown_arch_fails (dir : ModelDir) (cm : Bool)
    (gt : Option String)
    (h1 : modelPadding dir.modelPt.className = none)
    (h2 : readGroundTruth dir cm = .ok gt) :
    loadModel dir cm = .error (.keyError dir.modelPt.className) := by
  simp [loadModel, h2, h1]

/-- Witness for C8 at a concrete input: the repository's own
`SimplerDenseNNfc` class from `utils/newModels.py` is not in the padding
table, so loading such a model raises `KeyError`. -/
theorem load_model_unknown_arch_fails_witness :
    loadModel ⟨⟨"SimplerDenseNNfc", [("fc1.weight", .scalar 0)]⟩, some "0\n"⟩
      true = .error (.keyError "SimplerDenseNNfc") :=
  load_model_unknown_arch_fails
    ⟨⟨"SimplerDenseNNfc", [("fc1.weight", .scalar 0)]⟩, some "0\n"⟩
    true (some "0\n") rfl rfl

/-- Witness for C6 at a concrete input: loading the concrete
`VisionTransformer` model succeeds and the conclusion of
`load_model_pads_head_layers` holds for it. -/
theorem load_model_pads_head_layers_witness :
    ∃ tbl, modelPadding "VisionTransformer" = some tbl ∧
      (∀ p ∈ tbl, ∃ t0 t2, lookupA p.1 vitDir.modelPt.stateDict = some t0 ∧
        pad_to_target t0 p.2 = .ok t2 ∧ lookupA p.1 vitSD = some t2 ∧
        shapeOf t2 = p.2) ∧
      (∀ n, (∀ p ∈ tbl, p.1 ≠ n) →
        lookupA n vitSD = lookupA n vitDir.modelPt.stateDict) :=
  load_model_pads_head_layers vitDir true vitSD "VisionTransformer"
    (some "0\n") loadModel_vitDir

/-! ### Flattening -/

/-- C7: for any model that carries, at every layer name recorded in the
layer map, a tensor whose flattened length matches the recorded length,
`flatten_model` succeeds and its output length is exactly the sum of the
map's recorded flatten lengths; and the output only depends on the model
through `lookupA`, so it is independent of the order in which the model's
own dictionary stores its layers. -/
theorem flatten_model_length_sum (m m' : List (String × NDTensor))
    (h2 : ∀ n, lookupA n m' = lookupA n m) :
    ∀ lm : LayerMap,
      (∀ p ∈ lm, ∃ t, lookupA p.1 m = some t ∧ (flattenT t).length = p.2) →
      ∃ v, flatten_model m lm = .ok v ∧ flatten_model m' lm = .ok v ∧
        v.length = (lm.map Prod.snd).sum := by
  intro lm
  induction lm with
  | nil => intro _; exact ⟨[], rfl, rfl, by simp⟩
  | cons p rest ih =>
    intro h1
    obtain ⟨k, len⟩ := p
    obtain ⟨t, hl, hlen⟩ := h1 (k, len) (by simp)
    obtain ⟨v, hv, hv', hvl⟩ := ih (fun q hq => h1 q (List.mem_cons_of_mem _ hq))
    refine ⟨flattenT t ++ v, ?_, ?_, ?_⟩
    · simp [flatten_model, hl, hv]
    · simp [flatten_model, h2 k, hl, hv']
    · simp [hvl, hlen]

/-- A small concrete rank-2 tensor for the C7 witness. -/
def t2x2 : NDTensor := .dim [.dim [.scalar 1, .scalar 2], .dim [.scalar 3, .scalar 4]]

/-- Witness for C7 at a concrete input: a two-layer model, the same model
stored in the opposite order, and a layer map listing both layers. -/
theorem flatten_model_length_sum_witness :
    ∃ v, flatten_model [("b", .scalar 5), ("a", t2x2)] [("a", 4), ("b", 1)] =
        .ok v ∧
      flatten_model [("a", t2x2), ("b", .scalar 5)] [("a", 4), ("b", 1)] =
        .ok v ∧
      v.length = ([("a", 4), ("b", 1)].map Prod.snd).sum := by
  have h2 : ∀ n, lookupA n [("a", t2x2), ("b", NDTensor.scalar 5)] =
      lookupA n [("b", NDTensor.scalar 5), ("a", t2x2)] := by
    intro n
    by_cases ha : "a" = n <;> by_cases hb : "b" = n
    · exact absurd (ha.trans hb.symm) (by decide)
    · simp [lookupA, ha, hb]
    · simp [lookupA, ha, hb]
    · simp [lookupA, ha, hb]
  have h1 : ∀ p ∈ ([("a", 4), ("b", 1)] : LayerMap),
      ∃ t, lookupA p.1 [("b", NDTensor.scalar 5), ("a", t2x2)] = some t ∧
        (flattenT t).length = p.2 := by
    intro p hp
    rcases List.mem_cons.mp hp with h | h
    · subst h; exact ⟨t2x2, by simp [lookupA], by simp [t2x2, flattenT]⟩
    · rcases List.mem_cons.mp h with h | h
      · subst h; exact ⟨.scalar 5, by simp [lookupA], by simp [flattenT]⟩
      · simp at h
  exact flatten_model_length_sum [("b", .scalar 5), ("a", t2x2)]
    [("a", t2x2), ("b", .scalar 5)] h2 [("a", 4), ("b", 1)] h1

/-! ### Grouping: the two dicts of `configure` stay aligned -/

/-- The joint grouping of the loaded corpus: per class, the list of
`(model_repr, ground_truth)` pairs in load order.  This is the reference
view against which the two parallel dicts of `configure` are proved
aligned. -/
abbrev PairDict := List (String × List ((List (String × NDTensor)) × Option String))

/-- One step of the joint grouping. -/
def pairStep (pd : PairDict) (x : LoadedModel) : PairDict :=
  let cls := x.2.1
  let pd2 := if (lookupA cls pd).isNone then pd ++ [(cls, [])] else pd
  appendVal cls (x.1, x.2.2) pd2

/-- The joint grouping of a loaded corpus. -/
def groupPairs (loaded : List LoadedModel) : PairDict :=
  loaded.foldl pairStep []

theorem mapVals_append {α β : Type} (f : α → β) :
    ∀ d1 d2 : List (String × α),
      mapVals f (d1 ++ d2) = mapVals f d1 ++ mapVals f d2 := by
  intro d1 d2
  induction d1 with
  | nil => rfl
  | cons p rest ih => obtain ⟨k, v⟩ := p; simp [mapVals, ih]

theorem appendVal_mapVals {α β : Type} (g : α → β) (k : String) (z : α) :
    ∀ d : List (String × List α),
      appendVal k (g z) (mapVals (List.map g) d) =
        mapVals (List.map g) (appendVal k z d) := by
  intro d
  induction d with
  | nil => rfl
  | cons p rest ih =>
    obtain ⟨k', vs⟩ := p
    by_cases h : k' = k <;> simp [appendVal, mapVals, h, ih]

theorem appendVal_keys {α : Type} (k : String) (x : α) :
    ∀ d : List (String × List α),
      (appendVal k x d).map Prod.fst = d.map Prod.fst := by
  intro d
  induction d with
  | nil => rfl
  | cons p rest ih =>
    obtain ⟨k', vs⟩ := p
    by_cases h : k' = k <;> simp [appendVal, h, ih]

theorem lookupA_none_iff {α : Type} (k : String) :
    ∀ d : List (String × α), lookupA k d = none ↔ k ∉ d.map Prod.fst := by
  intro d
  induction d with
  | nil => simp [lookupA]
  | cons p rest ih =>
    obtain ⟨k', v⟩ := p
    by_cases h : k' = k
    · subst h
      simp [lookupA]
    · simp only [lookupA, if_neg h, List.map_cons, List.mem_cons]
      constructor
      · intro h1 h2
        rcases h2 with he | hm
        · exact h he.symm
        · exact (ih.mp h1) hm
      · intro h2
        exact ih.mpr (fun hm => h2 (Or.inr hm))

theorem lookupA_of_mem_nodup {α : Type} (k : String) (v : α) :
    ∀ d : List (String × α), (d.map Prod.fst).Nodup → (k, v) ∈ d →
      lookupA k d = some v := by
  intro d
  induction d with
  | nil => intro _ hm; simp at hm
  | cons p rest ih =>
    obtain ⟨k', v'⟩ := p
    intro hnd hm
    rw [List.map_cons] at hnd
    have hnd2 := List.nodup_cons.mp hnd
    rcases List.mem_cons.mp hm with h | h
    · injection h with h1 h2
      subst h1; subst h2
      simp [lookupA]
    · have hk : k' ≠ k := by
        intro he
        subst he
        exact hnd2.1 (by
          have := List.mem_map_of_mem Prod.fst h
          simpa using this)
      simp [lookupA, hk, ih hnd2.2 h]

theorem groupStep_aligned (pd : PairDict) (x : LoadedModel) :
    groupStep (mapVals (List.map Prod.fst) pd, mapVals (List.map Prod.snd) pd) x =
      (mapVals (List.map Prod.fst) (pairStep pd x),
        mapVals (List.map Prod.snd) (pairStep pd x)) := by
  obtain ⟨repr2, cls, gt⟩ := x
  cases hcase : lookupA cls pd with
  | none =>
    have hn1 : lookupA cls (mapVals (List.map Prod.fst) pd) = none := by
      rw [lookupA_mapVals, hcase]; rfl
    have hsplit1 : mapVals (List.map Prod.fst) pd ++ [(cls, [])] =
        mapVals (List.map Prod.fst) (pd ++ [(cls, [])]) := by
      rw [mapVals_append]; rfl
    have hsplit2 : mapVals (List.map Prod.snd) pd ++ [(cls, [])] =
        mapVals (List.map Prod.snd) (pd ++ [(cls, [])]) := by
      rw [mapVals_append]; rfl
    have e1 : appendVal cls repr2 (mapVals (List.map Prod.fst) (pd ++ [(cls, [])])) =
        mapVals (List.map Prod.fst) (appendVal cls (repr2, gt) (pd ++ [(cls, [])])) :=
      appendVal_mapVals Prod.fst cls (repr2, gt) (pd ++ [(cls, [])])
    have e2 : appendVal cls gt (mapVals (List.map Prod.snd) (pd ++ [(cls, [])])) =
        mapVals (List.map Prod.snd) (appendVal cls (repr2, gt) (pd ++ [(cls, [])])) :=
      appendVal_mapVals Prod.snd cls (repr2, gt) (pd ++ [(cls, [])])
    simp [groupStep, pairStep, hn1, hcase, hsplit1, hsplit2, e1, e2]
  | some vs =>
    have hn1 : lookupA cls (mapVals (List.map Prod.fst) pd) =
        some (List.map Prod.fst vs) := by
      rw [lookupA_mapVals, hcase]; rfl
    have e1 : appendVal cls repr2 (mapVals (List.map Prod.fst) pd) =
        mapVals (List.map Prod.fst) (appendVal cls (repr2, gt) pd) :=
      appendVal_mapVals Prod.fst cls (repr2, gt) pd
    have e2 : appendVal cls gt (mapVals (List.map Prod.snd) pd) =
        mapVals (List.map Prod.snd) (appendVal cls (repr2, gt) pd) :=
      appendVal_mapVals Prod.snd cls (repr2, gt) pd
    simp [groupStep, pairStep, hn1, hcase, e1, e2]

theorem groupLoaded_eq_groupPairs (loaded : List LoadedModel) :
    groupLoaded loaded =
      (mapVals (List.map Prod.fst) (groupPairs loaded),
        mapVals (List.map Prod.snd) (groupPairs loaded)) := by
  suffices h : ∀ pd rd gd, rd = mapVals (List.map Prod.fst) pd →
      gd = mapVals (List.map Prod.snd) pd →
      loaded.foldl groupStep (rd, gd) =
        (mapVals (List.map Prod.fst) (loaded.foldl pairStep pd),
          mapVals (List.map Prod.snd) (loaded.foldl pairStep pd)) by
    exact h [] [] [] rfl rfl
  induction loaded with
  | nil => intro pd rd gd h1 h2; simp [h1, h2]
  | cons x rest ih =>
    intro pd rd gd h1 h2
    subst h1; subst h2
    simp only [List.foldl_cons]
    rw [groupStep_aligned pd x]
    exact ih (pairStep pd x) _ _ rfl rfl

theorem pairStep_keys_nodup (pd : PairDict) (x : LoadedModel)
    (h : (pd.map Prod.fst).Nodup) : ((pairStep pd x).map Prod.fst).Nodup := by
  obtain ⟨repr2, cls, gt⟩ := x
  simp only [pairStep]
  rw [appendVal_keys]
  by_cases hn : (lookupA cls pd).isNone
  · rw [if_pos hn]
    have hni : cls ∉ pd.map Prod.fst :=
      (lookupA_none_iff cls pd).mp (Option.isNone_iff_eq_none.mp hn)
    rw [List.map_append, List.nodup_append]
    refine ⟨h, by simp, ?_⟩
    intro a ha hb
    simp at hb
    exact hni (hb ▸ ha)
  · rw [if_neg hn]; exact h

theorem groupPairs_keys_nodup (loaded : List LoadedModel) :
    ((groupPairs loaded).map Prod.fst).Nodup := by
  suffices h : ∀ pd : PairDict, (pd.map Prod.fst).Nodup →
      ((loaded.foldl pairStep pd).map Prod.fst).Nodup by
    exact h [] (by simp)
  induction loaded with
  | nil => intro pd h; simpa using h
  | cons x rest ih =>
    intro pd h
    simp only [List.foldl_cons]
    exact ih (pairStep pd x) (pairStep_keys_nodup pd x h)

/-! ### The X/y pairing of `configure` -/

/-- The feature row contributed by one model, recomputed from the
persisted layer-map and transform dictionaries: look both up for the
model's architecture, flatten the model with the layer map, and reduce
with the transform. -/
def rowFor (lmd : LayerMapDict) (ltd : TransformDict) (arch : String)
    (m : List (String × NDTensor)) : Option (List Int) :=
  match lookupA arch lmd, lookupA arch ltd with
  | some lm, some tr =>
    match flatten_model m lm with
    | .ok v => some (use_feature_reduction_algorithm tr v)
    | .error _ => none
  | _, _ => none

/-- The reference `(feature row, label)` pairs of a grouped corpus: per
architecture in dict order, per model in load order, each model's own
reduced features next to its own ground-truth label. -/
def pairsOf (lmd : LayerMapDict) (ltd : TransformDict) (pd : PairDict) :
    List (List Int × Option String) :=
  (pd.map (fun ap =>
    ap.2.map (fun mg => ((rowFor lmd ltd ap.1 mg.1).getD [], mg.2)))).flatten

theorem zip_proj {α β : Type} :
    ∀ l : List (α × β), (l.map Prod.fst).zip (l.map Prod.snd) = l := by
  intro l
  induction l with
  | nil => rfl
  | cons p rest ih => simp [ih]

theorem flattenArchList_inv (lm : LayerMap) :
    ∀ (ms : List (List (String × NDTensor))) (vs : List (List Int)),
      flattenArchList ms lm = .ok vs →
      List.Forall₂ (fun m v => flatten_model m lm = .ok v) ms vs := by
  intro ms
  induction ms with
  | nil =>
    intro vs h
    simp [flattenArchList] at h
    subst h
    exact List.Forall₂.nil
  | cons m rest ih =>
    intro vs h
    simp only [flattenArchList] at h
    cases hf : flatten_model m lm with
    | error e => simp only [hf] at h; exact absurd h (by simp)
    | ok v =>
      simp only [hf] at h
      cases hr : flattenArchList rest lm with
      | error e => simp only [hr] at h; exact absurd h (by simp)
      | ok vs2 =>
        simp only [hr] at h
        injection h with h
        rw [← h]
        exact List.Forall₂.cons hf (ih vs2 hr)

/-- The relation holding between one grouped-corpus entry and its
flattened counterpart. -/
def FlatRel (lmd : LayerMapDict)
    (ap : String × List ((List (String × NDTensor)) × Option String))
    (an : String × List (List Int)) : Prop :=
  ap.1 = an.1 ∧ ∃ lm, lookupA ap.1 lmd = some lm ∧
    List.Forall₂ (fun mg v => flatten_model mg.1 lm = .ok v) ap.2 an.2

theorem flattenAll_inv (lmd : LayerMapDict) :
    ∀ (pd : PairDict) (nm : List (String × List (List Int))),
      flattenAll (mapVals (List.map Prod.fst) pd) lmd = .ok nm →
      List.Forall₂ (FlatRel lmd) pd nm := by
  intro pd
  induction pd with
  | nil =>
    intro nm h
    simp [mapVals, flattenAll] at h
    subst h
    exact List.Forall₂.nil
  | cons ap rest ih =>
    intro nm h
    obtain ⟨arch, ms⟩ := ap
    simp only [mapVals, flattenAll] at h
    cases hl : lookupA arch lmd with
    | none => simp only [hl] at h; exact absurd h (by simp)
    | some lm =>
      simp only [hl] at h
      cases hf : flattenArchList (List.map Prod.fst ms) lm with
      | error e => simp only [hf] at h; exact absurd h (by simp)
      | ok vs =>
        simp only [hf] at h
        cases hr : flattenAll (mapVals (List.map Prod.fst) rest) lmd with
        | error e => simp only [hr] at h; exact absurd h (by simp)
        | ok tail =>
          simp only [hr] at h
          injection h with h
          rw [← h]
          refine List.Forall₂.cons ⟨rfl, lm, hl, ?_⟩ (ih tail hr)
          exact List.forall₂_map_left_iff.mp (flattenArchList_inv lm _ vs hf)

theorem rows_map_eq (lmd : LayerMapDict) (ltd : TransformDict) (arch : String)
    (lm : LayerMap) (tr : ReductionTransform)
    (hlm : lookupA arch lmd = some lm) (htr : lookupA arch ltd = some tr) :
    ∀ (ms : List ((List (String × NDTensor)) × Option String))
      (vs : List (List Int)),
      List.Forall₂ (fun mg v => flatten_model mg.1 lm = .ok v) ms vs →
      vs.map (use_feature_reduction_algorithm tr) =
        ms.map (fun mg => (rowFor lmd ltd arch mg.1).getD []) := by
  intro ms vs h
  induction h with
  | nil => rfl
  | cons hfm hrest ihf =>
    rename_i mg v ms' vs'
    simp only [List.map_cons, ihf]
    have hrow : rowFor lmd ltd arch mg.1 =
        some (use_feature_reduction_algorithm tr v) := by
      simp [rowFor, hlm, htr, hfm]
    rw [hrow]
    simp

theorem pushRow_getD (X : Option (List (List Int))) (r : List Int) :
    (pushRow X r).getD [] = X.getD [] ++ [r] := by
  cases X <;> simp [pushRow]

theorem archRows_spec (gts : List (Option String)) (tr : ReductionTransform) :
    ∀ (ms : List (List Int)) (pre : Nat) (X : Option (List (List Int)))
      (y : List (Option String)),
      pre + ms.length ≤ gts.length →
      ∃ X2 y2, archRows gts tr ms pre X y = .ok (X2, y2) ∧
        X2.getD [] = X.getD [] ++ ms.map (use_feature_reduction_algorithm tr) ∧
        y2 = y ++ (gts.drop pre).take ms.length := by
  intro ms
  induction ms with
  | nil => intro pre X y h; exact ⟨X, y, rfl, by simp, by simp⟩
  | cons m rest ih =>
    intro pre X y h
    have hpre : pre < gts.length := by
      simp only [List.length_cons] at h
      omega
    have hg : gts[pre]? = some gts[pre] := List.getElem?_eq_getElem hpre
    obtain ⟨X2, y2, hrec, hX, hy⟩ :=
      ih (pre + 1) (pushRow X (use_feature_reduction_algorithm tr m))
        (y ++ [gts[pre]])
        (by simp only [List.length_cons] at h; omega)
    refine ⟨X2, y2, ?_, ?_, ?_⟩
    · simp only [archRows, hg]
      exact hrec
    · rw [hX, pushRow_getD]
      simp
    · rw [hy]
      have hstep : (gts.drop pre).take ((m :: rest).length) =
          gts[pre] :: (gts.drop (pre + 1)).take rest.length := by
        rw [List.drop_eq_getElem_cons hpre, List.length_cons, List.take_succ_cons]
      rw [hstep, List.append_assoc, List.singleton_append]

theorem buildXY_spec (gd : GtDict) (ltd : TransformDict) (lmd : LayerMapDict) :
    ∀ (pdS : PairDict) (nmS : List (String × List (List Int)))
      (X : Option (List (List Int))) (y : List (Option String)),
      List.Forall₂ (FlatRel lmd) pdS nmS →
      (∀ ap ∈ pdS, lookupA ap.1 gd = some (ap.2.map Prod.snd)) →
      (∀ ap ∈ pdS, ∃ tr, lookupA ap.1 ltd = some tr) →
      ∃ X2 y2, buildXY nmS gd ltd X y = .ok (X2, y2) ∧
        X2.getD [] = X.getD [] ++ (pairsOf lmd ltd pdS).map Prod.fst ∧
        y2 = y ++ (pairsOf lmd ltd pdS).map Prod.snd := by
  intro pdS
  induction pdS with
  | nil =>
    intro nmS X y hfa _ _
    cases hfa
    exact ⟨X, y, rfl, by simp [pairsOf], by simp [pairsOf]⟩
  | cons ap rest ih =>
    intro nmS X y hfa hgd hltd
    cases hfa with
    | cons h1 h2 =>
      rename_i an nmRest
      obtain ⟨arch, ms⟩ := ap
      obtain ⟨arch2, vs⟩ := an
      obtain ⟨heq, lm, hlm, hflat⟩ := h1
      simp only at heq hlm hflat
      subst heq
      obtain ⟨tr, htr⟩ := hltd (arch, ms) (by simp)
      have hgts := hgd (arch, ms) (by simp)
      simp only at hgts htr
      have hlen : ms.length = vs.length := hflat.length_eq
      obtain ⟨Xa, ya, harch, hXa, hya⟩ :=
        archRows_spec (ms.map Prod.snd) tr vs 0 X y
          (by simp [← hlen])
      obtain ⟨X2, y2, hrec, hX2, hy2⟩ := ih nmRest Xa ya h2
        (fun q hq => hgd q (List.mem_cons_of_mem _ hq))
        (fun q hq => hltd q (List.mem_cons_of_mem _ hq))
      have hrows : vs.map (use_feature_reduction_algorithm tr) =
          ms.map (fun mg => (rowFor lmd ltd arch mg.1).getD []) :=
        rows_map_eq lmd ltd arch lm tr hlm htr ms vs hflat
      refine ⟨X2, y2, ?_, ?_, ?_⟩
      · simp only [buildXY, hgts, htr, harch]
        exact hrec
      · rw [hX2, hXa]
        simp only [pairsOf, List.map_cons, List.flatten_cons, List.map_append,
          List.append_assoc]
        rw [hrows]
        simp [pairsOf, List.map_map]
      · rw [hy2, hya]
        simp only [List.drop_zero]
        have htake : (ms.map Prod.snd).take vs.length = ms.map Prod.snd := by
          rw [← hlen]
          simp
        rw [htake]
        simp only [pairsOf, List.map_cons, List.flatten_cons, List.map_append,
          List.append_assoc]
        simp [List.map_map]

theorem forall₂_mem_left {α β : Type} {R : α → β → Prop} :
    ∀ {l1 : List α} {l2 : List β}, List.Forall₂ R l1 l2 →
      ∀ a ∈ l1, ∃ b ∈ l2, R a b := by
  intro l1 l2 h
  induction h with
  | nil => intro a ha; simp at ha
  | cons hR hrest ih =>
    intro a ha
    rcases List.mem_cons.mp ha with h1 | h1
    · subst h1; exact ⟨_, by simp, hR⟩
    · obtain ⟨b, hb, hRb⟩ := ih a h1
      exact ⟨b, List.mem_cons_of_mem _ hb, hRb⟩

theorem forall₂_flatrel_fst_eq {lmd : LayerMapDict} :
    ∀ {pd : PairDict} {nm : List (String × List (List Int))},
      List.Forall₂ (FlatRel lmd) pd nm → nm.map Prod.fst = pd.map Prod.fst := by
  intro pd nm h
  induction h with
  | nil => rfl
  | cons h1 h2 ih => simp only [List.map_cons, ih, ← h1.1]

theorem lookupA_mapEntry_isSome {α β : Type} (g : String × α → β) (k : String) :
    ∀ d : List (String × α),
      (lookupA k (d.map (fun av => (av.1, g av)))).isSome =
        (lookupA k d).isSome := by
  intro d
  induction d with
  | nil => rfl
  | cons p rest ih =>
    obtain ⟨k', v⟩ := p
    by_cases h : k' = k <;> simp [lookupA, h, ih]

/-- Structure of a successful `configure` run: the corpus loads, and the
persisted regressor was fitted on the matrix `X` and label list `y` built
by the X/y loop, whose rows and labels are exactly the per-model
`(feature row, own label)` pairs of the grouped corpus. -/
theorem configure_success_spec (art0 : ArtifactFiles) (dirs : List ModelDir)
    (p : WeightTableParams) (nf : Nat)
    (h : (configure art0 dirs p nf).outcome = Except.ok ()) :
    ∃ loaded ltd M y,
      loadAll dirs = .ok loaded ∧
      configure art0 dirs p nf =
        ⟨⟨some (create_layer_map (groupLoaded loaded).1), some ltd,
          some (.pickled ⟨M, y⟩)⟩, .ok ()⟩ ∧
      M = (pairsOf (create_layer_map (groupLoaded loaded).1) ltd
        (groupPairs loaded)).map Prod.fst ∧
      y = (pairsOf (create_layer_map (groupLoaded loaded).1) ltd
        (groupPairs loaded)).map Prod.snd := by
  cases hload : loadAll dirs with
  | error e => simp [configure, hload] at h
  | ok loaded =>
    cases hcon : check_models_consistency (groupLoaded loaded).1 with
    | false => simp [configure, hload, hcon] at h
    | true =>
      cases hflat : flattenAll (groupLoaded loaded).1
          (create_layer_map (groupLoaded loaded).1) with
      | error e => simp [configure, hload, hcon, hflat] at h
      | ok nm =>
        have halign := groupLoaded_eq_groupPairs loaded
        have hrd : (groupLoaded loaded).1 =
            mapVals (List.map Prod.fst) (groupPairs loaded) := by rw [halign]
        have hgd : (groupLoaded loaded).2 =
            mapVals (List.map Prod.snd) (groupPairs loaded) := by rw [halign]
        have hflat' := hflat
        nth_rewrite 1 [hrd] at hflat'
        have hfa : List.Forall₂
            (FlatRel (create_layer_map (groupLoaded loaded).1))
            (groupPairs loaded) nm := flattenAll_inv _ _ nm hflat'
        have hnodup := groupPairs_keys_nodup loaded
        have hgdl : ∀ ap ∈ groupPairs loaded,
            lookupA ap.1 (groupLoaded loaded).2 = some (ap.2.map Prod.snd) := by
          intro ap hap
          obtain ⟨a1, a2⟩ := ap
          rw [hgd, lookupA_mapVals,
            lookupA_of_mem_nodup a1 a2 _ hnodup hap]
          rfl
        have hltdl : ∀ ap ∈ groupPairs loaded,
            ∃ tr, lookupA ap.1 (fit_feature_reduction_algorithm nm p nf) =
              some tr := by
          intro ap hap
          obtain ⟨an, han, hR⟩ := forall₂_mem_left hfa ap hap
          have hk : nm.map Prod.fst = (groupPairs loaded).map Prod.fst :=
            forall₂_flatrel_fst_eq hfa
          have hnodup2 : (nm.map Prod.fst).Nodup := by rw [hk]; exact hnodup
          obtain ⟨b1, b2⟩ := an
          have hlan : lookupA b1 nm = some b2 :=
            lookupA_of_mem_nodup b1 b2 nm hnodup2 han
          have hsome : (lookupA ap.1
              (fit_feature_reduction_algorithm nm p nf)).isSome = true := by
            have heq : fit_feature_reduction_algorithm nm p nf =
                nm.map (fun av =>
                  (av.1, ⟨projTable p (av.2.headD []).length nf⟩)) := rfl
            rw [heq, lookupA_mapEntry_isSome, hR.1]
            simp only at hlan ⊢
            rw [hlan]
            rfl
          exact Option.isSome_iff_exists.mp hsome
        obtain ⟨X2, y2, hbuild, hX2, hy2⟩ := buildXY_spec
          (groupLoaded loaded).2 (fit_feature_reduction_algorithm nm p nf)
          (create_layer_map (groupLoaded loaded).1)
          (groupPairs loaded) nm none [] hfa hgdl hltdl
        cases hX2c : X2 with
        | none =>
          rw [hX2c] at hbuild
          simp [configure, hload, hcon, hflat, hbuild] at h
        | some M =>
          rw [hX2c] at hbuild hX2
          refine ⟨loaded, fit_feature_reduction_algorithm nm p nf, M, y2, rfl,
            ?_, ?_, ?_⟩
          · simp [configure, hload, hcon, hflat, hbuild]
          · simpa using hX2
          · simpa using hy2

/-- C4: if the corpus loads but the consistency check fails, `configure`
aborts with `LayerMismatchError` before writing anything: the artifact
files are exactly as they were (`check_models_consistency` runs at
detector.py line 123, before the first `pickle.dump` at line 128). -/
theorem configure_mismatch_writes_nothing (art0 : ArtifactFiles)
    (dirs : List ModelDir) (p : WeightTableParams) (nf : Nat)
    (loaded : List LoadedModel)
    (h1 : loadAll dirs = .ok loaded)
    (h2 : check_models_consistency (groupLoaded loaded).1 = false) :
    configure art0 dirs p nf = ⟨art0, .error .layerMismatch⟩ := by
  simp [configure, h1, h2]

/-- C5: whenever `configure` succeeds, the persisted regressor was fitted
on a matrix `X` and a label list `y` that stay paired: zipping the rows of
`X` with `y` yields exactly, per architecture in grouping order and per
model in load order, each model's own reduced feature row next to that
same model's own ground-truth label. -/
theorem configure_rows_stay_paired (art0 : ArtifactFiles)
    (dirs : List ModelDir) (p : WeightTableParams) (nf : Nat)
    (h : (configure art0 dirs p nf).outcome = Except.ok ()) :
    ∃ loaded lmd ltd M y,
      loadAll dirs = .ok loaded ∧
      (configure art0 dirs p nf).artifacts.layerMapFile = some lmd ∧
      (configure art0 dirs p nf).artifacts.transformFile = some ltd ∧
      (configure art0 dirs p nf).artifacts.regressorFile =
        some (.pickled ⟨M, y⟩) ∧
      M.zip y = pairsOf lmd ltd (groupPairs loaded) := by
  obtain ⟨loaded, ltd, M, y, hl, hc, hM, hy⟩ :=
    configure_success_spec art0 dirs p nf h
  refine ⟨loaded, create_layer_map (groupLoaded loaded).1, ltd, M, y, hl,
    ?_, ?_, ?_, ?_⟩
  · rw [hc]
  · rw [hc]
  · rw [hc]
  · rw [hM, hy, zip_proj]

theorem readGroundTruth_ok_inv (d : ModelDir) (gt : Option String)
    (h : readGroundTruth d true = .ok gt) :
    gt = (pyReadlines (d.groundTruthCsv.getD "")).head? := by
  cases hg : d.groundTruthCsv with
  | none => simp [readGroundTruth, hg] at h
  | some s =>
    simp only [readGroundTruth, hg, if_true] at h
    cases hr : pyReadlines s with
    | nil => simp only [hr] at h; exact absurd h (by simp)
    | cons l t =>
      simp only [hr] at h
      injection h with h
      simp [← h, hg, hr]

theorem loadAll_labels : ∀ (dirs : List ModelDir) (loaded : List LoadedModel),
    loadAll dirs = .ok loaded →
    loaded.map (fun t => t.2.2) =
      dirs.map (fun d => (pyReadlines (d.groundTruthCsv.getD "")).head?) := by
  intro dirs
  induction dirs with
  | nil =>
    intro loaded h
    simp [loadAll] at h
    subst h
    rfl
  | cons d rest ih =>
    intro loaded h
    simp only [loadAll] at h
    cases hm : loadModel d true with
    | error e => simp only [hm] at h; exact absurd h (by simp)
    | ok x =>
      simp only [hm] at h
      cases hr : loadAll rest with
      | error e => simp only [hr] at h; exact absurd h (by simp)
      | ok xs =>
        simp only [hr] at h
        injection h with h
        obtain ⟨r, c, g⟩ := x
        have hgt := (loadModel_ok_inv d true r c g hm).2.1
        rw [← h]
        simp only [List.map_cons]
        rw [ih xs hr, ← readGroundTruth_ok_inv d g hgt]

/-- C10: whenever `configure` succeeds, the label list `y` the regressor
was fitted on consists exactly of the loaded models' ground-truth strings
(grouped by architecture, in load order), and each loaded ground truth is
the raw first element of `readlines()` on the model's `ground_truth.csv`
content — the unparsed first line, newline included, with no numeric
conversion anywhere (`y` has string entries by construction). -/
theorem configure_labels_are_raw_first_lines (art0 : ArtifactFiles)
    (dirs : List ModelDir) (p : WeightTableParams) (nf : Nat)
    (h : (configure art0 dirs p nf).outcome = Except.ok ()) :
    ∃ loaded lmd ltd M y,
      loadAll dirs = .ok loaded ∧
      (configure art0 dirs p nf).artifacts.regressorFile =
        some (.pickled ⟨M, y⟩) ∧
      y = (pairsOf lmd ltd (groupPairs loaded)).map Prod.snd ∧
      (pairsOf lmd ltd (groupPairs loaded)).map Prod.snd =
        ((groupPairs loaded).map (fun ap => ap.2.map Prod.snd)).flatten ∧
      loaded.map (fun t => t.2.2) =
        dirs.map (fun d => (pyReadlines (d.groundTruthCsv.getD "")).head?) := by
  obtain ⟨loaded, ltd, M, y, hl, hc, hM, hy⟩ :=
    configure_success_spec art0 dirs p nf h
  refine ⟨loaded, create_layer_map (groupLoaded loaded).1, ltd, M, y, hl,
    by rw [hc], hy, ?_, loadAll_labels dirs loaded hl⟩
  simp only [pairsOf, List.map_flatten, List.map_map]
  apply congrArg List.flatten
  apply List.map_congr_left
  intro ap _
  simp [List.map_map, Function.comp]

/-! ### Concrete corpora for the `configure` witnesses -/

/-- Concrete weight-table metaparameters for witnesses. -/
def pW : WeightTableParams := ⟨0, 0, 1, 1⟩

/-- A second `VisionTransformer` state dict carrying an extra layer, so
its layer-name set differs from `vitSD`. -/
def vit2SD : List (String × NDTensor) :=
  [("head.weight", zW), ("head.bias", zB), ("extra", .scalar 7)]

/-- A well-formed `VisionTransformer` model directory whose layer set
differs from `vitDir`'s by the extra layer. -/
def vitDir2 : ModelDir := ⟨⟨"VisionTransformer", vit2SD⟩, some "1\n"⟩

theorem loadModel_vitDir2 :
    loadModel vitDir2 true = .ok (vit2SD, "VisionTransformer", some "1\n") := by
  have hg : readGroundTruth ⟨⟨"VisionTransformer", vit2SD⟩, some "1\n"⟩ true =
      .ok (some "1\n") := by
    have hr : pyReadlines "1\n" = ["1\n"] := by rfl
    simp [readGroundTruth, hr]
  have hw : pad_to_target zW [138, 768] = .ok zW := pad_zeroTensor [138, 768]
  have hb : pad_to_target zB [138] = .ok zB := pad_zeroTensor [138]
  have hmp : modelPadding "VisionTransformer" =
      some [("head.weight", [138, 768]), ("head.bias", [138])] := by rfl
  have l1 : lookupA "head.weight" vit2SD = some zW := by simp [vit2SD, lookupA]
  have u1 : updateAssoc "head.weight" zW vit2SD = vit2SD := by
    simp [vit2SD, updateAssoc]
  have l2 : lookupA "head.bias" vit2SD = some zB := by simp [vit2SD, lookupA]
  have u2 : updateAssoc "head.bias" zB vit2SD = vit2SD := by
    simp [vit2SD, updateAssoc]
  simp [loadModel, vitDir2, hg, hmp, applyPadding, l1, hw, u1, l2, hb, u2]

/-- Witness for C4 at a concrete input: a two-model `VisionTransformer`
corpus in which the second model has an extra layer; `configure` returns
`LayerMismatchError` and the artifact files are untouched. -/
theorem configure_mismatch_writes_nothing_witness :
    configure artAll [vitDir, vitDir2] pW 2 = ⟨artAll, .error .layerMismatch⟩ :=
  configure_mismatch_writes_nothing artAll [vitDir, vitDir2] pW 2
    [(vitSD, "VisionTransformer", some "0\n"),
      (vit2SD, "VisionTransformer", some "1\n")]
    (by simp [loadAll, loadModel_vitDir, loadModel_vitDir2])
    (by decide)

theorem configure_vit_ok (a0 : ArtifactFiles) (nf : Nat) :
    (configure a0 [vitDir] pW nf).outcome = Except.ok () := by
  have hload : loadAll [vitDir] =
      .ok [(vitSD, "VisionTransformer", some "0\n")] := by
    simp [loadAll, loadModel_vitDir]
  simp only [configure, hload]
  rfl

/-- Witness for C5 at a concrete input: the singleton `VisionTransformer`
corpus configures successfully and the X/y pairing conclusion holds. -/
theorem configure_rows_stay_paired_witness :
    ∃ loaded lmd ltd M y,
      loadAll [vitDir] = .ok loaded ∧
      (configure artNoReg [vitDir] pW 3).artifacts.layerMapFile = some lmd ∧
      (configure artNoReg [vitDir] pW 3).artifacts.transformFile = some ltd ∧
      (configure artNoReg [vitDir] pW 3).artifacts.regressorFile =
        some (.pickled ⟨M, y⟩) ∧
      M.zip y = pairsOf lmd ltd (groupPairs loaded) :=
  configure_rows_stay_paired artNoReg [vitDir] pW 3 (configure_vit_ok artNoReg 3)

/-- Witness for C10 at a concrete input: the singleton `VisionTransformer`
corpus configures successfully; the label conclusion holds, and the single
loaded label is the raw string `"0\n"` with its newline. -/
theorem configure_labels_are_raw_first_lines_witness :
    (∃ loaded lmd ltd M y,
      loadAll [vitDir] = .ok loaded ∧
      (configure artAll [vitDir] pW 1).artifacts.regressorFile =
        some (.pickled ⟨M, y⟩) ∧
      y = (pairsOf lmd ltd (groupPairs loaded)).map Prod.snd ∧
      (pairsOf lmd ltd (groupPairs loaded)).map Prod.snd =
        ((groupPairs loaded).map (fun ap => ap.2.map Prod.snd)).flatten ∧
      loaded.map (fun t => t.2.2) =
        [vitDir].map (fun d => (pyReadlines (d.groundTruthCsv.getD "")).head?)) ∧
    (pyReadlines "0\n").head? = some "0\n" :=
  ⟨configure_labels_are_raw_first_lines artAll [vitDir] pW 1
    (configure_vit_ok artAll 1), rfl⟩

end NNTroj
